import Mathlib

/-!
Verification development for the `quote_typer` terminal typing-practice tool.

The Rust sources are embedded shallowly:
* `src/quote.rs`   : the `Quote` record and `content_chars`.
* `src/typing.rs`  : `SessionType`, `ControlFlow`, `TypingState` and its
  methods (`is_finished`, `requests_quote`, `update_control_flow`,
  `on_key_event`, `add_quote`, `getting_next_quote`), plus the driver loop of
  `typing_session`.
* `src/lib.rs`     : `Stats` (running counters and the two derived rates),
  `ColoredChar`, and the `Cursor` model (`align_center`, `cursor_back_one`,
  `cursor_forward_one`, `write_before`).

Modelling conventions:
* Machine integers (`u16`, `u32`, `u64`, `usize`) are `Nat`; where the Rust
  code can overflow or truncate, the reduction `% 2 ^ width` is written
  explicitly (`align_center` truncates its count with `as u16`;
  the `usize` subtraction in `requests_quote` wraps modulo `2 ^ 64` in
  release builds - it would panic in debug builds, see `USIZE` below).
* Elapsed time is modelled as an exact number of milliseconds.
  `Instant::elapsed().as_secs()` is `ms / 1000` (integer division) and the
  fractional-second comparison `elapsed().as_secs_f32() < x` is
  `ms < 1000 * x`, which is exact for integer milliseconds.
* Fallible cursor steps return `Option` (`none` = the `Err(())` branch; the
  Rust code returns before mutating, so the cursor is unchanged on error).
* The `f32` rate computations of `Stats` are modelled by exact rationals
  extended with IEEE-style `inf` / `nan` values (`FVal` below); rounding of
  finite values is ignored, the special values of division by zero are kept.
-/

namespace QuoteTyper

/-- Rust `usize` is 64-bit here; `a - b` on `usize` wraps modulo `2 ^ 64` in
release builds (and panics in debug builds). -/
def USIZE : Nat := 2 ^ 64

/-! ## quote.rs -/

/-- The `Quote` record deserialized from the provider (src/quote.rs). -/
structure Quote where
  content : String
  author : String
  tags : List String
  length : Int
deriving DecidableEq

/-- `Quote::content_chars` : the content as a character sequence. -/
def Quote.content_chars (q : Quote) : List Char := q.content.toList

/-! ## typing.rs : session policy and control flow -/

/-- `SessionType` (src/typing.rs): the type of typing test.
Payloads are `u16` in Rust; nothing here depends on the upper bound. -/
inductive SessionType where
  | SingleQuote
  | MultiQuote (n : Nat)
  | Time (s : Nat)
  | Zen
deriving DecidableEq

/-- `ControlFlow` (src/typing.rs). -/
inductive ControlFlow where
  | Exit
  | Normal
  | Finished
  | RequestsQuote
  | WaitingForQuote
deriving DecidableEq

/-- `CHARS_TILL_NEXT_QUOTE` (src/typing.rs): the prefetch threshold. -/
def CHARS_TILL_NEXT_QUOTE : Nat := 15

/-! ## lib.rs : Stats counters -/

/-- `Stats` (src/lib.rs). `elapsed_time: f32` (seconds) is carried as exact
integer milliseconds `elapsed_ms`. -/
structure Stats where
  num_chars_typed : Nat
  num_correct : Nat
  current_quote : Nat
  num_quotes : Option Nat
  elapsed_ms : Nat
deriving DecidableEq

/-- `Stats::new` (src/lib.rs). -/
def Stats.new (session_type : SessionType) : Stats :=
  { num_chars_typed := 0
    num_correct := 0
    current_quote := 1
    num_quotes := match session_type with
      | .MultiQuote x => some x
      | _ => none
    elapsed_ms := 0 }

/-- `Stats::update` (src/lib.rs): `num_correct` counts position-wise equal
pairs over the overlap of the two sequences. -/
def Stats.update (s : Stats) (quote_chars typed_chars : List Char)
    (current_quote : Nat) (elapsed_ms : Nat) : Stats :=
  { s with
    num_correct := List.countP (fun p => p.1 == p.2) (quote_chars.zip typed_chars)
    num_chars_typed := typed_chars.length
    current_quote := current_quote
    elapsed_ms := elapsed_ms }

/-! ## typing.rs : the session state machine -/

/-- `TypingState` (src/typing.rs). The `out: &mut Stdout` handle carries no
state relevant to the machine and is omitted; `start_time` is replaced by
passing the elapsed milliseconds into each time-reading operation. -/
structure TypingState where
  session_type : SessionType
  quote_num : Nat
  quote_chars : List Char
  typed_chars : List Char
  control_flow : ControlFlow
  stats : Stats
deriving DecidableEq

/-- `TypingState::new` (src/typing.rs). -/
def TypingState.new (session_type : SessionType) (quote : Quote) : TypingState :=
  { session_type := session_type
    control_flow := ControlFlow.Normal
    quote_chars := quote.content_chars
    typed_chars := []
    quote_num := 1
    stats := Stats.new session_type }

/-- `TypingState::is_finished` (src/typing.rs): a `Time(x)` session is
finished once `elapsed().as_secs() >= x`; every other session is finished
once the typed buffer has the length of the quote buffer. -/
def is_finished (st : TypingState) (ms : Nat) : Bool :=
  match st.session_type with
  | .Time x => decide (x ≤ ms / 1000)
  | _ => st.typed_chars.length == st.quote_chars.length

/-- `TypingState::requests_quote` (src/typing.rs). The subtraction
`quote_chars.len() - typed_chars.len()` is on `usize`: on underflow it wraps
modulo `2 ^ 64` (release builds; debug builds panic). -/
def requests_quote (st : TypingState) (ms : Nat) : Bool :=
  let does_request : Bool :=
    match st.session_type with
    | .SingleQuote => false
    | .MultiQuote x => decide (st.quote_num < x)
    | .Zen => true
    | .Time x => decide (ms < 1000 * x)
  let chars_left := (st.quote_chars.length + USIZE - st.typed_chars.length) % USIZE
  does_request && decide (chars_left ≤ CHARS_TILL_NEXT_QUOTE)

/-- `TypingState::update_control_flow` (src/typing.rs): first a `Normal`
state that wants a quote becomes `RequestsQuote`, then a finished session
becomes `Finished` (overriding whatever was there). -/
def update_control_flow (st : TypingState) (ms : Nat) : TypingState :=
  let st1 := if st.control_flow = ControlFlow.Normal ∧ requests_quote st ms
    then { st with control_flow := ControlFlow.RequestsQuote } else st
  if is_finished st1 ms then { st1 with control_flow := ControlFlow.Finished } else st1

/-! ## typing.rs : key events -/

/-- The crossterm key codes the program distinguishes. `enter` and every
code other than `char`/`backspace` fall into the `_ => ()` arm of
`on_key_event`. -/
inductive KeyCode where
  | char (c : Char)
  | enter
  | backspace
  | other
deriving DecidableEq

/-- Crossterm key event kinds. -/
inductive KeyEventKind where
  | press
  | rep
  | release
deriving DecidableEq

/-- Crossterm key modifiers (the program compares them for equality with
`KeyModifiers::CONTROL`, i.e. control held and nothing else). -/
structure KeyModifiers where
  ctrl : Bool
  shift : Bool
  alt : Bool
deriving DecidableEq

/-- The exact `KeyModifiers::CONTROL` value. -/
def KeyModifiers.CONTROL : KeyModifiers := ⟨true, false, false⟩

/-- A crossterm key event. -/
structure KeyEvent where
  code : KeyCode
  modifiers : KeyModifiers
  kind : KeyEventKind
deriving DecidableEq

/-- The buffer/flow mutation of `TypingState::on_key_event` (the `match
key_event.code` block): Ctrl-C sets `Exit`, any other character is pushed,
backspace pops, everything else (including Enter) does nothing. -/
def apply_key (st : TypingState) (ev : KeyEvent) : TypingState :=
  match ev.code with
  | .char c =>
    if c = 'c' ∧ ev.modifiers = KeyModifiers.CONTROL
      then { st with control_flow := ControlFlow.Exit }
      else { st with typed_chars := st.typed_chars ++ [c] }
  | .backspace => { st with typed_chars := st.typed_chars.dropLast }
  | _ => st

/-- `TypingState::on_key_event` (src/typing.rs): release events are ignored
(returning the current control flow); otherwise the key is applied, the
statistics are recomputed, and the control flow is updated. -/
def on_key_event (st : TypingState) (ev : KeyEvent) (ms : Nat) : TypingState :=
  if ev.kind = KeyEventKind.release then st
  else
    let st1 := apply_key st ev
    let st2 := { st1 with
      stats := st1.stats.update st1.quote_chars st1.typed_chars st1.quote_num ms }
    update_control_flow st2 ms

/-- `TypingState::add_quote` (src/typing.rs): back to `Normal`, bump the
quote counter, and append a separating space plus the new content. -/
def add_quote (st : TypingState) (quote : Quote) : TypingState :=
  { st with
    control_flow := ControlFlow.Normal
    quote_num := st.quote_num + 1
    quote_chars := st.quote_chars ++ [' '] ++ quote.content_chars }

/-- `TypingState::getting_next_quote` (src/typing.rs). -/
def getting_next_quote (st : TypingState) : TypingState :=
  { st with control_flow := ControlFlow.WaitingForQuote }

/-! ## typing.rs : the driver loop (`typing_session`)

One iteration of the event loop: read a key event, hand it to the state
machine, then act on the returned control flow. `RequestsQuote` spawns the
fetch (modelled by the `pending` flag) and moves to `WaitingForQuote`;
`WaitingForQuote` with a pending fetch awaits it and appends the arriving
quote; `Finished` breaks the loop; `Exit` terminates the process. -/

/-- The driver-owned state: the typing state plus whether a quote fetch is
in flight (`next_quote.is_some()` in `typing_session`). -/
structure DriverState where
  ts : TypingState
  pending : Bool
deriving DecidableEq

/-- One iteration of the `typing_session` loop on a key event. The
`arriving` quote is the value the in-flight fetch resolves to; it is only
consumed in the `WaitingForQuote` branch. -/
def driver_step (s : DriverState) (ev : KeyEvent) (ms : Nat) (arriving : Quote) :
    DriverState :=
  let ts := on_key_event s.ts ev ms
  match ts.control_flow with
  | ControlFlow.RequestsQuote => ⟨getting_next_quote ts, true⟩
  | ControlFlow.WaitingForQuote =>
    if s.pending then ⟨add_quote ts arriving, false⟩ else ⟨ts, s.pending⟩
  | _ => ⟨ts, s.pending⟩

/-- States of the driver loop reachable from `init`. A step consumes a key
event at some elapsed time; `ok` constrains the quotes the provider can
deliver. The loop stops at `Finished` (break) and `Exit` (process exit), so
no step leaves those states. -/
inductive Reachable (ok : Quote → Prop) (init : DriverState) : DriverState → Prop where
  | refl : Reachable ok init init
  | step : ∀ {s : DriverState} (ev : KeyEvent) (ms : Nat) (q : Quote),
      Reachable ok init s → ok q →
      s.ts.control_flow ≠ ControlFlow.Finished →
      s.ts.control_flow ≠ ControlFlow.Exit →
      Reachable ok init (driver_step s ev ms q)

/-! ## lib.rs : rendering colors and per-character cells -/

/-- The crossterm colors the program emits. -/
inductive Color where
  | green
  | red
  | reset
deriving DecidableEq

/-- `ColoredChar` (src/lib.rs). -/
structure ColoredChar where
  character : Char
  color : Color
deriving DecidableEq

/-- `ColoredChar::new` (src/lib.rs): green iff the typed character equals the
quote character, red otherwise; the glyph is the quote character except that
a space in the quote is overridden by the typed character. -/
def ColoredChar.new (typed_char quote_char : Char) : ColoredChar :=
  let color := if typed_char = quote_char then Color.green else Color.red
  let outchar :=
    match typed_char, quote_char with
    | t, ' ' => t
    | _, q => q
  { character := outchar, color := color }

/-- The before-cursor cell list built in `write_to_terminal` (src/lib.rs):
typed and quote characters are zipped, colored, and reversed (they are drawn
walking backwards from the cursor in `Cursor::write_before`). -/
def before_cursor (typed_chars quote_chars : List Char) : List ColoredChar :=
  ((typed_chars.zip quote_chars).map fun p => ColoredChar.new p.1 p.2).reverse

/-! ## lib.rs : the cursor model

All four fields are `u16` in Rust. On the cursors the program constructs
(`col < num_cols`, `row < num_rows`, sizes from `terminal::size()` with
`num_cols > 0`) none of the `u16` additions or subtractions below can wrap,
so they are written as plain `Nat` operations; theorems carry the
`0 < num_cols` hypothesis to stay on that domain. -/

/-- `Cursor` (src/lib.rs). -/
structure Cursor where
  col : Nat
  row : Nat
  num_cols : Nat
  num_rows : Nat
deriving DecidableEq

/-- `Cursor::align_center` (src/lib.rs). `num_chars` is the `u32` argument
(the typed length); the code truncates it with `as u16`, i.e. `% 2 ^ 16`,
before taking `% num_cols` and `/ num_cols`; the row is then clamped to
`num_rows / 2`. Returns the `(col, row)` the cursor is set to. -/
def align_center (num_chars : Nat) (num_cols num_rows : Nat) : Nat × Nat :=
  let cursor_col := (num_chars % 2 ^ 16) % num_cols
  let cursor_row := (num_chars % 2 ^ 16) / num_cols
  let cursor_row := if cursor_row > num_rows / 2 then num_rows / 2 else cursor_row
  (cursor_col, cursor_row)

/-- `Cursor::cursor_back_one` (src/lib.rs). `none` models `Err(())`; the
Rust method returns before mutating, so the cursor is unchanged on error.
The consumed character plays no role: the method does not receive one. -/
def cursor_back_one (c : Cursor) : Option Cursor :=
  if c.col = 0 ∧ c.row = 0 then none
  else if c.col = 0 then some { c with row := c.row - 1, col := c.num_cols - 1 }
  else some { c with col := c.col - 1 }

/-- `Cursor::cursor_forward_one` (src/lib.rs). `none` models `Err(())`. -/
def cursor_forward_one (c : Cursor) : Option Cursor :=
  if c.col = c.num_cols - 1 ∧ c.row = c.num_rows - 1 then none
  else if c.col = c.num_cols - 1 then some { c with row := c.row + 1, col := 0 }
  else some { c with col := c.col + 1 }

/-- Iterate a fallible cursor step `n` times, stopping at the first error
(as `write_before`/`write_after` do with their `break`). -/
def stepN (f : Cursor → Option Cursor) : Nat → Cursor → Option Cursor
  | 0, c => some c
  | n + 1, c => (f c).bind (stepN f n)

/-- Modelled from the spec: the spec (section 4.1) requires a
line-break-aware `step_back(current, consumed_char)` - on a line-break move
up one row (error if already at row 0), otherwise decrement the column,
wrapping to the rightmost column of the previous row (error at `(0,0)`).
The code of this repository revision (src/lib.rs `cursor_back_one`) takes no
character; this definition follows the spec words for comparison. -/
def step_back_spec (c : Cursor) (consumed_char : Char) : Option Cursor :=
  if consumed_char = '\n' then
    if c.row = 0 then none
    else some { c with row := c.row - 1 }
  else
    if c.col = 0 ∧ c.row = 0 then none
    else if c.col = 0 then some { c with row := c.row - 1, col := c.num_cols - 1 }
    else some { c with col := c.col - 1 }

/-- Modelled from the spec: the line-break-aware
`step_forward(current, next_char)` of section 4.1 - on a line-break advance
to the next row at column 0 (error if already at the last row), otherwise
increment the column, wrapping to the next row (error at the last cell). -/
def step_forward_spec (c : Cursor) (next_char : Char) : Option Cursor :=
  if next_char = '\n' then
    if c.row = c.num_rows - 1 then none
    else some { c with row := c.row + 1, col := 0 }
  else
    if c.col = c.num_cols - 1 ∧ c.row = c.num_rows - 1 then none
    else if c.col = c.num_cols - 1 then some { c with row := c.row + 1, col := 0 }
    else some { c with col := c.col + 1 }

/-! ## lib.rs : the derived statistics rates

`Stats::analysis_str` computes `cpm = 60.0 * num_correct as f32 /
elapsed_time` and `wpm = cpm / 5.0` and formats both; the `Display` impl
computes the same `cpm` and casts it to `u32`. The `f32` values are modelled
by exact rationals extended with the IEEE special values produced by
division by zero (rounding of finite values is ignored; `elapsed_time` is
never negative, so signed zero is irrelevant). -/

/-- An `f32` value: a finite rational, an infinity, or NaN. -/
inductive FVal where
  | fin (q : ℚ)
  | inf
  | negInf
  | nan
deriving DecidableEq

/-- IEEE-style division on `FVal`: a nonzero finite number divided by zero
gives an infinity, `0.0 / 0.0` gives NaN. -/
def FVal.div : FVal → FVal → FVal
  | .nan, _ => .nan
  | _, .nan => .nan
  | .inf, .inf => .nan
  | .inf, .negInf => .nan
  | .negInf, .inf => .nan
  | .negInf, .negInf => .nan
  | .inf, .fin b => if b < 0 then .negInf else .inf
  | .negInf, .fin b => if b < 0 then .inf else .negInf
  | .fin _, .inf => .fin 0
  | .fin _, .negInf => .fin 0
  | .fin a, .fin b =>
    if b = 0 then (if a = 0 then .nan else if 0 < a then .inf else .negInf)
    else .fin (a / b)

/-- Rust `as u32` on an `f32`: saturating cast, NaN goes to 0. -/
def FVal.to_u32 : FVal → Nat
  | .nan => 0
  | .inf => 2 ^ 32 - 1
  | .negInf => 0
  | .fin q => min (Int.toNat ⌊q⌋) (2 ^ 32 - 1)

/-- `elapsed_time` as the `f32` number of seconds. -/
def Stats.elapsed_secs (s : Stats) : ℚ := (s.elapsed_ms : ℚ) / 1000

/-- The `cpm` computed (unguarded) in `Stats::analysis_str` (src/lib.rs):
`60.0 * self.num_correct as f32 / self.elapsed_time`. -/
def Stats.analysis_cpm (s : Stats) : FVal :=
  FVal.div (FVal.fin (60 * s.num_correct)) (FVal.fin s.elapsed_secs)

/-- The `wpm` computed in `Stats::analysis_str`: `cpm / 5.0`. -/
def Stats.analysis_wpm (s : Stats) : FVal :=
  FVal.div s.analysis_cpm (FVal.fin 5)

/-- The `CPM` field of the `Display` impl for `Stats` (src/lib.rs):
`(60.0 * (self.num_correct as f32) / self.elapsed_time) as u32`. -/
def Stats.display_cpm (s : Stats) : Nat :=
  (FVal.div (FVal.fin (60 * s.num_correct)) (FVal.fin s.elapsed_secs)).to_u32

/-! ## Basic lemmas about the state machine -/

/-- `is_finished` reads only the session type and the two buffer lengths. -/
theorem is_finished_depends (st st2 : TypingState) (ms : Nat)
    (h1 : st2.session_type = st.session_type)
    (h2 : st2.typed_chars = st.typed_chars)
    (h3 : st2.quote_chars = st.quote_chars) :
    is_finished st2 ms = is_finished st ms := by
  unfold is_finished
  rw [h1, h2, h3]

/-- `requests_quote` reads only the session type, the quote counter and the
two buffer lengths. -/
theorem requests_quote_depends (st st2 : TypingState) (ms : Nat)
    (h1 : st2.session_type = st.session_type)
    (h2 : st2.typed_chars = st.typed_chars)
    (h3 : st2.quote_chars = st.quote_chars)
    (h4 : st2.quote_num = st.quote_num) :
    requests_quote st2 ms = requests_quote st ms := by
  unfold requests_quote
  rw [h1, h2, h3, h4]

/-- Closed form of `update_control_flow`: the buffers are untouched and the
control flow is `Finished` when the finishing condition holds, else
`RequestsQuote` when it was `Normal` and a quote is wanted, else unchanged. -/
theorem is_finished_set_flow (st : TypingState) (cf : ControlFlow) (ms : Nat) :
    is_finished { st with control_flow := cf } ms = is_finished st ms := rfl

theorem update_control_flow_eq (st : TypingState) (ms : Nat) :
    update_control_flow st ms =
      { st with control_flow :=
          if is_finished st ms then ControlFlow.Finished
          else if st.control_flow = ControlFlow.Normal ∧ requests_quote st ms
            then ControlFlow.RequestsQuote
            else st.control_flow } := by
  unfold update_control_flow
  by_cases h1 : st.control_flow = ControlFlow.Normal ∧ requests_quote st ms
  · simp only [if_pos h1, is_finished_set_flow]
    by_cases h2 : is_finished st ms
    · simp only [if_pos h2]
    · simp only [if_neg h2, if_pos h1]
  · simp only [if_neg h1]
    by_cases h2 : is_finished st ms
    · simp only [if_pos h2]
    · simp only [if_neg h2, if_neg h1]

/-- `update_control_flow` never changes the typed buffer. -/
theorem update_control_flow_typed (st : TypingState) (ms : Nat) :
    (update_control_flow st ms).typed_chars = st.typed_chars := by
  rw [update_control_flow_eq]

/-- The finishing condition, spelled out: for a `Time(s)` session the
elapsed time is at least `s` seconds (`1000 * s` milliseconds); for every
other session the typed buffer has the length of the quote buffer. -/
theorem is_finished_iff (st : TypingState) (ms : Nat) :
    is_finished st ms = true ↔
      (match st.session_type with
       | SessionType.Time s => 1000 * s ≤ ms
       | _ => st.typed_chars.length = st.quote_chars.length) := by
  unfold is_finished
  cases hs : st.session_type with
  | Time s =>
    simp only [decide_eq_true_eq]
    rw [Nat.le_div_iff_mul_le (by norm_num)]
    omega
  | SingleQuote => simp
  | MultiQuote n => simp
  | Zen => simp

/-! ## C1 -/

/-- C1: for every non-time session policy the machine enters `Finished`
exactly when the typed-buffer length equals the quote-buffer length; for
`Time(s)` it enters `Finished` exactly when the elapsed time is at least `s`
seconds, regardless of the buffers. -/
theorem c1_finished_exactly (st : TypingState) (ms : Nat)
    (h : st.control_flow ≠ ControlFlow.Finished) :
    (update_control_flow st ms).control_flow = ControlFlow.Finished ↔
      (match st.session_type with
       | SessionType.Time s => 1000 * s ≤ ms
       | _ => st.typed_chars.length = st.quote_chars.length) := by
  rw [← is_finished_iff st ms, update_control_flow_eq]
  by_cases h2 : is_finished st ms
  · simp [h2]
  · simp only [Bool.not_eq_true] at h2
    simp only [h2, Bool.false_eq_true, if_false]
    split_ifs with h3 <;> simp_all

/-- Witness for C1 at a concrete input: a `Time 2` session at 2500 ms with
untyped characters remaining finishes. -/
theorem c1_witness :
    (update_control_flow (TypingState.new (SessionType.Time 2) ⟨"ab", "a", [], 2⟩)
        2500).control_flow = ControlFlow.Finished :=
  (c1_finished_exactly (TypingState.new (SessionType.Time 2) ⟨"ab", "a", [], 2⟩) 2500
    (by decide)).mpr (show 1000 * 2 ≤ 2500 by norm_num)

/-! ## C3 -/

/-- C3 counterexample: the claim `column = count mod width` fails at
`count = 65536, width = 10`: the code truncates the count with `as u16`
first, yielding column 0 where `65536 mod 10 = 6`. -/
theorem c3_counterexample :
    ¬((align_center 65536 10 4).1 = 65536 % 10) := by decide

/-- C3 amended: the cursor position is computed from the count truncated to
`u16`: `col = (count mod 2^16) mod width` and
`row = min ((count mod 2^16) / width) (height / 2)`; the row never exceeds
`height / 2`, and for counts below `2^16` the original formula holds. -/
theorem c3_amended (num_chars num_cols num_rows : Nat) (_h : 0 < num_cols) :
    (align_center num_chars num_cols num_rows).1 = num_chars % 2 ^ 16 % num_cols ∧
    (align_center num_chars num_cols num_rows).2 =
      min (num_chars % 2 ^ 16 / num_cols) (num_rows / 2) ∧
    (align_center num_chars num_cols num_rows).2 ≤ num_rows / 2 ∧
    (num_chars < 2 ^ 16 →
      (align_center num_chars num_cols num_rows).1 = num_chars % num_cols ∧
      (align_center num_chars num_cols num_rows).2 =
        min (num_chars / num_cols) (num_rows / 2)) := by
  unfold align_center
  dsimp only
  refine ⟨rfl, ?_, ?_, fun hlt => ?_⟩
  · split_ifs with hc <;> omega
  · split_ifs with hc <;> omega
  · rw [Nat.mod_eq_of_lt hlt]
    refine ⟨rfl, ?_⟩
    split_ifs with hc <;> omega

/-- Witness for C3 amended at `count = 23, width = 10, height = 4`. -/
theorem c3_witness :
    (align_center 23 10 4).1 = 23 % 2 ^ 16 % 10 ∧
    (align_center 23 10 4).2 = min (23 % 2 ^ 16 / 10) (4 / 2) ∧
    (align_center 23 10 4).2 ≤ 4 / 2 ∧
    (23 < 2 ^ 16 →
      (align_center 23 10 4).1 = 23 % 10 ∧
      (align_center 23 10 4).2 = min (23 / 10) (4 / 2)) :=
  c3_amended 23 10 4 (by decide)

/-! ## C10 -/

/-- C10: a cell rendered before the cursor is green exactly when the typed
character equals the quote character and red otherwise, and the glyph
written is the quote character - except when the quote character is a space,
in which case the typed character is written (so a wrong character typed
over a space shows as typed, in red). -/
theorem c10_colored_char (t q : Char) :
    ((ColoredChar.new t q).color = Color.green ↔ t = q) ∧
    ((ColoredChar.new t q).color = Color.red ↔ t ≠ q) ∧
    (ColoredChar.new t q).character = (if q = ' ' then t else q) := by
  unfold ColoredChar.new
  refine ⟨?_, ?_, ?_⟩
  · dsimp only
    split_ifs with h <;> simp [h]
  · dsimp only
    split_ifs with h <;> simp [h]
  · dsimp only
    by_cases hq : q = ' '
    · subst hq
      simp
    · rw [if_neg hq]
      split <;> simp_all

/-! ## C9 -/

/-- C9 counterexample: stepping back from `(col 3, row 1)` over a line-break
character. The spec-side step moves up one row; the code's
`cursor_back_one` does not receive the character at all and just decrements
the column, leaving the row unchanged. -/
theorem c9_counterexample :
    cursor_back_one ⟨3, 1, 10, 10⟩ = some ⟨2, 1, 10, 10⟩ ∧
    step_back_spec ⟨3, 1, 10, 10⟩ (Char.ofNat 10) = some ⟨3, 0, 10, 10⟩ ∧
    cursor_back_one ⟨3, 1, 10, 10⟩ ≠ step_back_spec ⟨3, 1, 10, 10⟩ (Char.ofNat 10) := by
  decide

/-- C9 amended: the single-step cursor moves ignore the text entirely - the
methods receive no character - and implement the plain
column-decrement/increment rule with wrap at the row edges for every
character; they agree with the spec's line-break-aware stepping exactly on
non-line-break characters. -/
theorem c9_steps_ignore_line_breaks (c : Cursor) (ch : Char) (h : ch ≠ Char.ofNat 10) :
    step_back_spec c ch = cursor_back_one c ∧
    step_forward_spec c ch = cursor_forward_one c := by
  constructor
  · unfold step_back_spec cursor_back_one
    rw [if_neg h]
  · unfold step_forward_spec cursor_forward_one
    rw [if_neg h]

/-- Witness for C9 amended at a concrete cursor and character. -/
theorem c9_witness :
    step_back_spec ⟨3, 1, 10, 10⟩ 'a' = cursor_back_one ⟨3, 1, 10, 10⟩ ∧
    step_forward_spec ⟨3, 1, 10, 10⟩ 'a' = cursor_forward_one ⟨3, 1, 10, 10⟩ :=
  c9_steps_ignore_line_breaks ⟨3, 1, 10, 10⟩ 'a' (by decide)

/-! ## C8 -/

/-- A successful forward step is undone by a backward step. -/
theorem back_after_forward {c d : Cursor} (h : cursor_forward_one c = some d) :
    cursor_back_one d = some c := by
  rcases c with ⟨col, row, nc, nr⟩
  unfold cursor_forward_one at h
  dsimp only at h
  split_ifs at h with h1 h2
  · cases h
    unfold cursor_back_one
    dsimp only
    rw [if_neg (show ¬(0 = 0 ∧ row + 1 = 0) by omega), if_pos rfl]
    simp only [Option.some.injEq, Cursor.mk.injEq, and_true]
    omega
  · cases h
    unfold cursor_back_one
    dsimp only
    rw [if_neg (show ¬(col + 1 = 0 ∧ row = 0) by omega),
      if_neg (show ¬(col + 1 = 0) by omega)]
    simp only [Option.some.injEq, Cursor.mk.injEq, and_true]
    omega

/-- Unfolding `stepN` from the right. -/
theorem stepN_succ_right (f : Cursor → Option Cursor) (n : Nat) (c : Cursor) :
    stepN f (n + 1) c = (stepN f n c).bind f := by
  induction n generalizing c with
  | zero =>
    cases hf : f c <;> simp [stepN, hf]
  | succ n ih =>
    rw [stepN, stepN]
    cases hf : f c with
    | none => rfl
    | some d => simpa using ih d

/-- `n` backward steps undo `n` successful forward steps. -/
theorem stepN_forward_back (n : Nat) (c c1 : Cursor)
    (h : stepN cursor_forward_one n c = some c1) :
    stepN cursor_back_one n c1 = some c := by
  induction n generalizing c with
  | zero =>
    rw [stepN] at h
    injection h with h
    subst h
    rfl
  | succ n ih =>
    rw [stepN] at h
    cases hf : cursor_forward_one c with
    | none => rw [hf] at h; cases h
    | some d =>
      rw [hf] at h
      dsimp only [Option.bind] at h
      rw [stepN_succ_right, ih d h]
      exact back_after_forward hf

/-- C8: a sequence of `n` forward single steps followed by `n` backward
single steps in which no step errors returns the cursor to its start (the
backward steps in fact always succeed after successful forward steps), and
a step at a boundary errors out exactly at the grid corners, leaving the
cursor in place (`cursor_back_one`/`cursor_forward_one` return `Err` before
mutating). -/
theorem c8_round_trip (c : Cursor) (n : Nat) (_h : 0 < c.num_cols) :
    (∀ c1, stepN cursor_forward_one n c = some c1 →
        stepN cursor_back_one n c1 = some c) ∧
    (cursor_back_one c = none ↔ c.col = 0 ∧ c.row = 0) ∧
    (cursor_forward_one c = none ↔ c.col = c.num_cols - 1 ∧ c.row = c.num_rows - 1) := by
  refine ⟨fun c1 hc1 => stepN_forward_back n c c1 hc1, ?_, ?_⟩
  · unfold cursor_back_one
    split_ifs with h1 h2 <;> simp_all
  · unfold cursor_forward_one
    split_ifs with h1 h2 <;> simp_all

/-- Witness for C8: seven forward steps from the origin of a 5-by-5 grid
reach `(2, 1)`; seven backward steps return to the origin. -/
theorem c8_witness :
    stepN cursor_back_one 7 ⟨2, 1, 5, 5⟩ = some ⟨0, 0, 5, 5⟩ :=
  (c8_round_trip ⟨0, 0, 5, 5⟩ 7 (by decide)).1 ⟨2, 1, 5, 5⟩ (by decide)

/-! ## C4 -/

/-- C4: the rate computations are not guarded. A freshly created `Stats`
(the value rendered at session start, `elapsed_time == 0.0`,
`num_correct == 0`) makes `analysis_str` compute `60.0 * 0.0 / 0.0 = NaN`
for both rates; the `Display` impl computes the same NaN and its `as u32`
cast masks it to 0 in the status line. -/
theorem c4_unguarded_rates :
    Stats.analysis_cpm (Stats.new SessionType.SingleQuote) = FVal.nan ∧
    Stats.analysis_wpm (Stats.new SessionType.SingleQuote) = FVal.nan ∧
    Stats.display_cpm (Stats.new SessionType.SingleQuote) = 0 := by
  have he : (Stats.new SessionType.SingleQuote).elapsed_secs = 0 := by
    unfold Stats.elapsed_secs Stats.new
    norm_num
  have hc : Stats.analysis_cpm (Stats.new SessionType.SingleQuote) = FVal.nan := by
    unfold Stats.analysis_cpm
    rw [he]
    show FVal.div (FVal.fin (60 * ((0 : Nat) : ℚ))) (FVal.fin 0) = FVal.nan
    norm_num [FVal.div]
  refine ⟨hc, ?_, ?_⟩
  · unfold Stats.analysis_wpm
    rw [hc]
    rfl
  · unfold Stats.display_cpm
    have : FVal.div (FVal.fin (60 * ((Stats.new SessionType.SingleQuote).num_correct : ℚ)))
        (FVal.fin (Stats.new SessionType.SingleQuote).elapsed_secs) = FVal.nan := hc
    rw [this]
    rfl

/-! ## C6 -/

/-- C6 counterexample: Ctrl-C pressed in a `Time 1` session at 2000 ms does
not yield `Exit`: `update_control_flow` overrides the `Exit` set by the key
handler with `Finished` because the finishing condition holds. -/
theorem c6_counterexample :
    (on_key_event
        { session_type := SessionType.Time 1, quote_num := 1,
          quote_chars := ['a', 'b'], typed_chars := [],
          control_flow := ControlFlow.Normal, stats := Stats.new (SessionType.Time 1) }
        ⟨KeyCode.char 'c', KeyModifiers.CONTROL, KeyEventKind.press⟩ 2000).control_flow =
      ControlFlow.Finished ∧
    (on_key_event
        { session_type := SessionType.Time 1, quote_num := 1,
          quote_chars := ['a', 'b'], typed_chars := [],
          control_flow := ControlFlow.Normal, stats := Stats.new (SessionType.Time 1) }
        ⟨KeyCode.char 'c', KeyModifiers.CONTROL, KeyEventKind.press⟩ 2000).control_flow ≠
      ControlFlow.Exit := by
  constructor
  · decide
  · decide

/-- The control flow a non-release key event produces, in terms of the
state after the buffer mutation (the statistics update in between touches
no field the conditions read). -/
theorem on_key_event_flow (st : TypingState) (ev : KeyEvent) (ms : Nat)
    (h : ev.kind ≠ KeyEventKind.release) :
    (on_key_event st ev ms).control_flow =
      (if is_finished (apply_key st ev) ms then ControlFlow.Finished
       else if (apply_key st ev).control_flow = ControlFlow.Normal ∧
           requests_quote (apply_key st ev) ms
         then ControlFlow.RequestsQuote
         else (apply_key st ev).control_flow) := by
  unfold on_key_event
  rw [if_neg h, update_control_flow_eq]
  rfl

/-- C6 amended: a non-release Ctrl-C key event always sets `Exit`, but the
subsequent `update_control_flow` overrides it with `Finished` whenever the
finishing condition holds at that event; the resulting control flow is
`Exit` exactly when the session is not finished. -/
theorem c6_ctrl_c (st : TypingState) (ms : Nat) (k : KeyEventKind)
    (hk : k ≠ KeyEventKind.release) :
    (on_key_event st ⟨KeyCode.char 'c', KeyModifiers.CONTROL, k⟩ ms).control_flow =
      (if is_finished st ms then ControlFlow.Finished else ControlFlow.Exit) := by
  rw [on_key_event_flow st ⟨KeyCode.char 'c', KeyModifiers.CONTROL, k⟩ ms hk]
  have h1 : is_finished (apply_key st ⟨KeyCode.char 'c', KeyModifiers.CONTROL, k⟩) ms
      = is_finished st ms := rfl
  have h2 : (apply_key st ⟨KeyCode.char 'c', KeyModifiers.CONTROL, k⟩).control_flow
      = ControlFlow.Exit := rfl
  rw [h1, h2]
  by_cases hf : is_finished st ms
  · rw [if_pos hf, if_pos hf]
  · rw [if_neg hf, if_neg hf,
      if_neg (show ¬(ControlFlow.Exit = ControlFlow.Normal ∧
          requests_quote (apply_key st ⟨KeyCode.char 'c', KeyModifiers.CONTROL, k⟩) ms
            = true)
        from fun hx => ControlFlow.noConfusion hx.1)]

/-- Witness for C6 amended: Ctrl-C in an unfinished `Zen` session exits. -/
theorem c6_witness :
    (on_key_event (TypingState.new SessionType.Zen ⟨"ab", "a", [], 2⟩)
        ⟨KeyCode.char 'c', KeyModifiers.CONTROL, KeyEventKind.press⟩ 0).control_flow =
      ControlFlow.Exit := by
  rw [c6_ctrl_c (TypingState.new SessionType.Zen ⟨"ab", "a", [], 2⟩) 0
    KeyEventKind.press (by decide)]
  decide

/-! ## C7 -/

/-- C7 counterexample: the Enter key appends nothing. In a state with an
empty typed buffer, a pressed Enter leaves the buffer length at 0, not 1 as
the claim (append a designated line-break character) requires. -/
theorem c7_counterexample :
    ¬((on_key_event
        { session_type := SessionType.Zen, quote_num := 1,
          quote_chars := ['a', 'b', 'c'], typed_chars := [],
          control_flow := ControlFlow.Normal, stats := Stats.new SessionType.Zen }
        ⟨KeyCode.enter, ⟨false, false, false⟩, KeyEventKind.press⟩ 0).typed_chars.length =
      0 + 1) := by decide

/-- C7 amended: for every accepted (non-release) key event, a character key
appends that character (unless it is the Ctrl-C combination, which mutates
nothing), backspace removes the last element (`dropLast`, a no-op on an
empty buffer), and every other key - including Enter - leaves the typed
buffer unchanged. -/
theorem c7_buffer_mutation (st : TypingState) (ev : KeyEvent) (ms : Nat)
    (h : ev.kind ≠ KeyEventKind.release) :
    (on_key_event st ev ms).typed_chars =
      (match ev.code with
       | KeyCode.char c =>
         if c = 'c' ∧ ev.modifiers = KeyModifiers.CONTROL
           then st.typed_chars
           else st.typed_chars ++ [c]
       | KeyCode.backspace => st.typed_chars.dropLast
       | _ => st.typed_chars) := by
  unfold on_key_event
  rw [if_neg h, update_control_flow_typed]
  unfold apply_key
  cases hc : ev.code with
  | char c =>
    dsimp only
    split_ifs <;> rfl
  | enter => rfl
  | backspace => rfl
  | other => rfl

/-- Witness for C7 amended: typing the character b appends it. -/
theorem c7_witness :
    (on_key_event
        { session_type := SessionType.Zen, quote_num := 1,
          quote_chars := ['a', 'b', 'c'], typed_chars := ['a'],
          control_flow := ControlFlow.Normal, stats := Stats.new SessionType.Zen }
        ⟨KeyCode.char 'b', ⟨false, false, false⟩, KeyEventKind.press⟩ 0).typed_chars =
      ['a', 'b'] := by
  rw [c7_buffer_mutation _ _ _ (by decide)]
  decide

/-! ## C2 -/

/-- `requests_quote`, spelled out, on states whose typed buffer does not
exceed the quote buffer (there the wrapping `usize` subtraction is the
plain difference): the policy wants more text and at most
`CHARS_TILL_NEXT_QUOTE` untyped characters remain. -/
theorem requests_quote_iff (st : TypingState) (ms : Nat)
    (h1 : st.typed_chars.length ≤ st.quote_chars.length)
    (h2 : st.quote_chars.length < USIZE) :
    requests_quote st ms = true ↔
      ((match st.session_type with
        | SessionType.SingleQuote => False
        | SessionType.MultiQuote n => st.quote_num < n
        | SessionType.Zen => True
        | SessionType.Time s => ms < 1000 * s) ∧
       st.quote_chars.length - st.typed_chars.length ≤ 15) := by
  have hwrap : (st.quote_chars.length + USIZE - st.typed_chars.length) % USIZE
      = st.quote_chars.length - st.typed_chars.length := by
    have he : st.quote_chars.length + USIZE - st.typed_chars.length
        = (st.quote_chars.length - st.typed_chars.length) + USIZE := by omega
    rw [he, Nat.add_mod_right]
    exact Nat.mod_eq_of_lt (by omega)
  unfold requests_quote
  simp only [hwrap, CHARS_TILL_NEXT_QUOTE, Bool.and_eq_true, decide_eq_true_eq]
  cases hs : st.session_type <;> simp

/-- C2 counterexample: in a `Zen` session with the quote fully typed
(`typed_length = target_length = 1`, hence 0 ≤ 15 untyped characters
remaining and the policy always wants more text) the machine does not enter
`RequestsQuote` from `Normal`: the finishing condition overrides the
transition and it enters `Finished`. -/
theorem c2_counterexample :
    ({ session_type := SessionType.Zen, quote_num := 1, quote_chars := ['a'],
       typed_chars := ['a'], control_flow := ControlFlow.Normal,
       stats := Stats.new SessionType.Zen } : TypingState).control_flow
        = ControlFlow.Normal ∧
    ({ session_type := SessionType.Zen, quote_num := 1, quote_chars := ['a'],
       typed_chars := ['a'], control_flow := ControlFlow.Normal,
       stats := Stats.new SessionType.Zen } : TypingState).quote_chars.length -
      ({ session_type := SessionType.Zen, quote_num := 1, quote_chars := ['a'],
         typed_chars := ['a'], control_flow := ControlFlow.Normal,
         stats := Stats.new SessionType.Zen } : TypingState).typed_chars.length ≤ 15 ∧
    (update_control_flow
        { session_type := SessionType.Zen, quote_num := 1, quote_chars := ['a'],
          typed_chars := ['a'], control_flow := ControlFlow.Normal,
          stats := Stats.new SessionType.Zen } 0).control_flow
        = ControlFlow.Finished ∧
    (update_control_flow
        { session_type := SessionType.Zen, quote_num := 1, quote_chars := ['a'],
          typed_chars := ['a'], control_flow := ControlFlow.Normal,
          stats := Stats.new SessionType.Zen } 0).control_flow
        ≠ ControlFlow.RequestsQuote := by
  refine ⟨rfl, by decide, ?_, ?_⟩ <;> decide

/-- C2 amended: from a loop-top state (never `RequestsQuote`) whose typed
buffer does not exceed the quote buffer, `update_control_flow` yields
`RequestsQuote` exactly when the state was `Normal`, the policy wants more
text (`SingleQuote`: never; `MultiQuote n`: quote index below `n`; `Zen`:
always; `Time s`: elapsed below `s` seconds), at most 15 untyped characters
remain, and the finishing condition does not hold (for non-time policies:
at least one untyped character remains). -/
theorem c2_requests_exactly (st : TypingState) (ms : Nat)
    (h1 : st.typed_chars.length ≤ st.quote_chars.length)
    (h2 : st.quote_chars.length < USIZE)
    (h3 : st.control_flow ≠ ControlFlow.RequestsQuote) :
    (update_control_flow st ms).control_flow = ControlFlow.RequestsQuote ↔
      (st.control_flow = ControlFlow.Normal ∧
       (match st.session_type with
        | SessionType.SingleQuote => False
        | SessionType.MultiQuote n => st.quote_num < n
        | SessionType.Zen => True
        | SessionType.Time s => ms < 1000 * s) ∧
       st.quote_chars.length - st.typed_chars.length ≤ 15 ∧
       ¬(match st.session_type with
         | SessionType.Time s => 1000 * s ≤ ms
         | _ => st.typed_chars.length = st.quote_chars.length)) := by
  rw [update_control_flow_eq]
  dsimp only
  by_cases hf : is_finished st ms
  · have hfi := (is_finished_iff st ms).mp hf
    rw [if_pos hf]
    constructor
    · intro habs
      exact ControlFlow.noConfusion habs
    · rintro ⟨-, -, -, hn⟩
      exact absurd hfi hn
  · have hfi : ¬(match st.session_type with
        | SessionType.Time s => 1000 * s ≤ ms
        | _ => st.typed_chars.length = st.quote_chars.length) :=
      fun hc => hf ((is_finished_iff st ms).mpr hc)
    rw [if_neg hf]
    by_cases hn : st.control_flow = ControlFlow.Normal ∧ requests_quote st ms
    · rw [if_pos hn]
      have hrq := (requests_quote_iff st ms h1 h2).mp hn.2
      exact iff_of_true rfl ⟨hn.1, hrq.1, hrq.2, hfi⟩
    · rw [if_neg hn]
      constructor
      · intro habs
        exact absurd habs h3
      · rintro ⟨hcf, hw, hr, -⟩
        exact absurd ⟨hcf, (requests_quote_iff st ms h1 h2).mpr ⟨hw, hr⟩⟩ hn

/-- Witness for C2 amended: a `MultiQuote 3` session, first quote of length
20, 5 characters typed (15 untyped remaining), requests the next quote. -/
theorem c2_witness :
    (update_control_flow
        { session_type := SessionType.MultiQuote 3, quote_num := 1,
          quote_chars := "abcdefghijklmnopqrst".toList,
          typed_chars := "abcde".toList, control_flow := ControlFlow.Normal,
          stats := Stats.new (SessionType.MultiQuote 3) } 0).control_flow
      = ControlFlow.RequestsQuote := by
  refine (c2_requests_exactly _ 0 (by decide) ?_ (by decide)).mpr
    ⟨rfl, by decide, by decide, by decide⟩
  show (20 : Nat) < 2 ^ 64
  norm_num

/-! ## C5 -/

/-- `update_control_flow` never changes the quote buffer. -/
theorem update_control_flow_quote (st : TypingState) (ms : Nat) :
    (update_control_flow st ms).quote_chars = st.quote_chars := by
  rw [update_control_flow_eq]

/-- The fields `apply_key` can change: only the typed buffer (by at most one
appended character) or - for Ctrl-C, which leaves the buffer alone - the
control flow. -/
theorem apply_key_fields (st : TypingState) (ev : KeyEvent) :
    (apply_key st ev).session_type = st.session_type ∧
    (apply_key st ev).quote_chars = st.quote_chars ∧
    (apply_key st ev).quote_num = st.quote_num ∧
    (apply_key st ev).typed_chars.length ≤ st.typed_chars.length + 1 ∧
    ((apply_key st ev).control_flow = st.control_flow ∨
      ((apply_key st ev).control_flow = ControlFlow.Exit ∧
       (apply_key st ev).typed_chars = st.typed_chars)) := by
  unfold apply_key
  cases ev.code with
  | char c =>
    dsimp only
    split_ifs with h
    · exact ⟨rfl, rfl, rfl,
        (show st.typed_chars.length ≤ st.typed_chars.length + 1 by omega),
        Or.inr ⟨rfl, rfl⟩⟩
    · exact ⟨rfl, rfl, rfl,
        (show (st.typed_chars ++ [c]).length ≤ st.typed_chars.length + 1 by simp),
        Or.inl rfl⟩
  | backspace =>
    refine ⟨rfl, rfl, rfl,
      (show st.typed_chars.dropLast.length ≤ st.typed_chars.length + 1 from ?_),
      Or.inl rfl⟩
    have := st.typed_chars.length_dropLast
    omega
  | enter =>
    exact ⟨rfl, rfl, rfl,
      (show st.typed_chars.length ≤ st.typed_chars.length + 1 by omega), Or.inl rfl⟩
  | other =>
    exact ⟨rfl, rfl, rfl,
      (show st.typed_chars.length ≤ st.typed_chars.length + 1 by omega), Or.inl rfl⟩

/-- A non-release key event leaves the typed buffer as `apply_key` left it. -/
theorem on_key_event_typed (st : TypingState) (ev : KeyEvent) (ms : Nat)
    (h : ev.kind ≠ KeyEventKind.release) :
    (on_key_event st ev ms).typed_chars = (apply_key st ev).typed_chars := by
  unfold on_key_event
  rw [if_neg h, update_control_flow_typed]

/-- A key event never changes the quote buffer. -/
theorem on_key_event_quote (st : TypingState) (ev : KeyEvent) (ms : Nat)
    (h : ev.kind ≠ KeyEventKind.release) :
    (on_key_event st ev ms).quote_chars = st.quote_chars := by
  unfold on_key_event
  rw [if_neg h, update_control_flow_quote]
  rcases apply_key_fields st ev with ⟨-, h2, -, -, -⟩
  exact h2

/-- `driver_step`, zeta-expanded. -/
theorem driver_step_eq (s : DriverState) (ev : KeyEvent) (ms : Nat) (q : Quote) :
    driver_step s ev ms q =
      (match (on_key_event s.ts ev ms).control_flow with
       | ControlFlow.RequestsQuote =>
         ⟨getting_next_quote (on_key_event s.ts ev ms), true⟩
       | ControlFlow.WaitingForQuote =>
         if s.pending then ⟨add_quote (on_key_event s.ts ev ms) q, false⟩
         else ⟨on_key_event s.ts ev ms, s.pending⟩
       | _ => ⟨on_key_event s.ts ev ms, s.pending⟩) := rfl

/-- Field equations for `add_quote`. -/
theorem add_quote_eqs (st : TypingState) (q : Quote) :
    (add_quote st q).control_flow = ControlFlow.Normal ∧
    (add_quote st q).typed_chars = st.typed_chars ∧
    (add_quote st q).quote_chars = st.quote_chars ++ [' '] ++ q.content_chars :=
  ⟨rfl, rfl, rfl⟩

/-- Field equations for `getting_next_quote`. -/
theorem getting_next_quote_eqs (st : TypingState) :
    (getting_next_quote st).control_flow = ControlFlow.WaitingForQuote ∧
    (getting_next_quote st).typed_chars = st.typed_chars ∧
    (getting_next_quote st).quote_chars = st.quote_chars :=
  ⟨rfl, rfl, rfl⟩

/-- On a `Normal` state the session machine cannot end a key event still
`Normal` with the buffers exactly level: a non-time session would be
finished, and a time session either is finished or still wants a quote. -/
theorem typed_lt_of_normal (ak : TypingState) (ms : Nat)
    (hfin : ¬is_finished ak ms = true)
    (hreqf : ¬requests_quote ak ms = true)
    (hle : ak.typed_chars.length ≤ ak.quote_chars.length) :
    ak.typed_chars.length < ak.quote_chars.length := by
  rcases Nat.lt_or_ge ak.typed_chars.length ak.quote_chars.length with h | h
  · exact h
  · exfalso
    have heq : ak.typed_chars.length = ak.quote_chars.length := le_antisymm hle h
    unfold is_finished at hfin
    unfold requests_quote at hreqf
    have hcl : (ak.quote_chars.length + USIZE - ak.typed_chars.length) % USIZE = 0 := by
      have hx : ak.quote_chars.length + USIZE - ak.typed_chars.length = USIZE := by omega
      rw [hx, Nat.mod_self]
    cases hss : ak.session_type with
    | Time x =>
      rw [hss] at hfin hreqf
      simp only [decide_eq_true_eq] at hfin
      rw [Nat.le_div_iff_mul_le (show 0 < 1000 by norm_num)] at hfin
      simp only [hcl, CHARS_TILL_NEXT_QUOTE, Bool.and_eq_true, decide_eq_true_eq] at hreqf
      omega
    | SingleQuote =>
      rw [hss] at hfin
      simp [heq] at hfin
    | MultiQuote n =>
      rw [hss] at hfin
      simp [heq] at hfin
    | Zen =>
      rw [hss] at hfin
      simp [heq] at hfin

/-- The invariant of the driver loop: the loop never rests in
`RequestsQuote`; in `Normal` the typed buffer is strictly shorter than the
quote buffer; in `WaitingForQuote` it is no longer than the quote buffer
and a fetch is in flight; and it never exceeds the quote buffer by more
than one character. -/
def loop_inv (s : DriverState) : Prop :=
  s.ts.control_flow ≠ ControlFlow.RequestsQuote ∧
  (s.ts.control_flow = ControlFlow.Normal →
    s.ts.typed_chars.length < s.ts.quote_chars.length) ∧
  (s.ts.control_flow = ControlFlow.WaitingForQuote →
    s.ts.typed_chars.length ≤ s.ts.quote_chars.length ∧ s.pending = true) ∧
  s.ts.typed_chars.length ≤ s.ts.quote_chars.length + 1

/-- Introduction form of `loop_inv` on an explicit pair. -/
theorem loop_inv_mk (ts : TypingState) (p : Bool)
    (h : ts.control_flow ≠ ControlFlow.RequestsQuote ∧
      (ts.control_flow = ControlFlow.Normal →
        ts.typed_chars.length < ts.quote_chars.length) ∧
      (ts.control_flow = ControlFlow.WaitingForQuote →
        ts.typed_chars.length ≤ ts.quote_chars.length ∧ p = true) ∧
      ts.typed_chars.length ≤ ts.quote_chars.length + 1) :
    loop_inv ⟨ts, p⟩ := h

/-- One driver-loop iteration preserves `loop_inv`, as long as the arriving
quote has nonempty content. -/
theorem driver_step_inv (s : DriverState) (ev : KeyEvent) (ms : Nat) (q : Quote)
    (hq : q.content_chars ≠ [])
    (hinv : loop_inv s)
    (hF : s.ts.control_flow ≠ ControlFlow.Finished)
    (hE : s.ts.control_flow ≠ ControlFlow.Exit) :
    loop_inv (driver_step s ev ms q) := by
  obtain ⟨i1, i2, i3, i4⟩ := hinv
  have hq1 : 1 ≤ q.content_chars.length := by
    cases hqc : q.content_chars with
    | nil => exact absurd hqc hq
    | cons a l => simp
  by_cases hrel : ev.kind = KeyEventKind.release
  · have hoe : on_key_event s.ts ev ms = s.ts := by
      unfold on_key_event
      rw [if_pos hrel]
    rw [driver_step_eq, hoe]
    cases hcf : s.ts.control_flow with
    | Exit => exact absurd hcf hE
    | Finished => exact absurd hcf hF
    | RequestsQuote => exact absurd hcf i1
    | Normal => exact loop_inv_mk s.ts s.pending ⟨i1, i2, i3, i4⟩
    | WaitingForQuote =>
      obtain ⟨hle, hpend⟩ := i3 hcf
      rw [if_pos hpend]
      obtain ⟨a1, a2, a3⟩ := add_quote_eqs s.ts q
      refine loop_inv_mk _ _ ⟨?_, ?_, ?_, ?_⟩
      · rw [a1]
        exact fun habs => ControlFlow.noConfusion habs
      · intro _
        rw [a2, a3]
        simp only [List.length_append, List.length_cons, List.length_nil]
        omega
      · intro habs
        rw [a1] at habs
        exact ControlFlow.noConfusion habs
      · rw [a2, a3]
        simp only [List.length_append, List.length_cons, List.length_nil]
        omega
  · have hbound : s.ts.typed_chars.length ≤ s.ts.quote_chars.length := by
      cases hcf : s.ts.control_flow with
      | Normal => exact le_of_lt (i2 hcf)
      | WaitingForQuote => exact (i3 hcf).1
      | Finished => exact absurd hcf hF
      | Exit => exact absurd hcf hE
      | RequestsQuote => exact absurd hcf i1
    obtain ⟨f1, f2, f3, f4, f5⟩ := apply_key_fields s.ts ev
    have ht := on_key_event_typed s.ts ev ms hrel
    have hqq := on_key_event_quote s.ts ev ms hrel
    rw [driver_step_eq, on_key_event_flow s.ts ev ms hrel]
    by_cases hfin : is_finished (apply_key s.ts ev) ms
    · rw [if_pos hfin]
      refine loop_inv_mk _ _ ⟨?_, ?_, ?_, ?_⟩
      · rw [on_key_event_flow s.ts ev ms hrel, if_pos hfin]
        exact fun habs => ControlFlow.noConfusion habs
      · intro habs
        rw [on_key_event_flow s.ts ev ms hrel, if_pos hfin] at habs
        exact ControlFlow.noConfusion habs
      · intro habs
        rw [on_key_event_flow s.ts ev ms hrel, if_pos hfin] at habs
        exact ControlFlow.noConfusion habs
      · rw [ht, hqq]
        omega
    · rw [if_neg hfin]
      by_cases hreq : (apply_key s.ts ev).control_flow = ControlFlow.Normal ∧
          requests_quote (apply_key s.ts ev) ms
      · rw [if_pos hreq]
        have hsn : s.ts.control_flow = ControlFlow.Normal := by
          rcases f5 with h | ⟨hx, -⟩
          · rw [← h]; exact hreq.1
          · rw [hx] at hreq
            exact ControlFlow.noConfusion hreq.1
        have hlt := i2 hsn
        obtain ⟨g1, g2, g3⟩ := getting_next_quote_eqs (on_key_event s.ts ev ms)
        refine loop_inv_mk _ _ ⟨?_, ?_, ?_, ?_⟩
        · rw [g1]
          exact fun habs => ControlFlow.noConfusion habs
        · intro habs
          rw [g1] at habs
          exact ControlFlow.noConfusion habs
        · intro _
          refine ⟨?_, rfl⟩
          rw [g2, g3, ht, hqq]
          omega
        · rw [g2, g3, ht, hqq]
          omega
      · rw [if_neg hreq]
        rcases f5 with hsame | ⟨hexit, htyeq⟩
        · rw [hsame]
          cases hcf : s.ts.control_flow with
          | RequestsQuote => exact absurd hcf i1
          | Finished => exact absurd hcf hF
          | Exit => exact absurd hcf hE
          | Normal =>
            have hack : (apply_key s.ts ev).typed_chars.length ≤
                (apply_key s.ts ev).quote_chars.length := by
              rw [f2]
              have := i2 hcf
              omega
            have hreqf : ¬requests_quote (apply_key s.ts ev) ms = true :=
              fun hx => hreq ⟨hsame.trans hcf, hx⟩
            have hlt := typed_lt_of_normal (apply_key s.ts ev) ms hfin hreqf hack
            refine loop_inv_mk _ _ ⟨?_, ?_, ?_, ?_⟩
            · rw [on_key_event_flow s.ts ev ms hrel, if_neg hfin, if_neg hreq,
                hsame, hcf]
              exact fun habs => ControlFlow.noConfusion habs
            · intro _
              rw [ht, hqq, ← f2]
              exact hlt
            · intro habs
              rw [on_key_event_flow s.ts ev ms hrel, if_neg hfin, if_neg hreq,
                hsame, hcf] at habs
              exact ControlFlow.noConfusion habs
            · rw [ht, hqq]
              omega
          | WaitingForQuote =>
            obtain ⟨hle, hpend⟩ := i3 hcf
            rw [if_pos hpend]
            obtain ⟨a1, a2, a3⟩ := add_quote_eqs (on_key_event s.ts ev ms) q
            refine loop_inv_mk _ _ ⟨?_, ?_, ?_, ?_⟩
            · rw [a1]
              exact fun habs => ControlFlow.noConfusion habs
            · intro _
              rw [a2, a3, ht, hqq]
              simp only [List.length_append, List.length_cons, List.length_nil]
              omega
            · intro habs
              rw [a1] at habs
              exact ControlFlow.noConfusion habs
            · rw [a2, a3, ht, hqq]
              simp only [List.length_append, List.length_cons, List.length_nil]
              omega
        · rw [hexit]
          refine loop_inv_mk _ _ ⟨?_, ?_, ?_, ?_⟩
          · rw [on_key_event_flow s.ts ev ms hrel, if_neg hfin, if_neg hreq, hexit]
            exact fun habs => ControlFlow.noConfusion habs
          · intro habs
            rw [on_key_event_flow s.ts ev ms hrel, if_neg hfin, if_neg hreq,
              hexit] at habs
            exact ControlFlow.noConfusion habs
          · intro habs
            rw [on_key_event_flow s.ts ev ms hrel, if_neg hfin, if_neg hreq,
              hexit] at habs
            exact ControlFlow.noConfusion habs
          · rw [ht, hqq, htyeq]
            omega

/-- Every reachable driver state satisfies `loop_inv`, provided the initial
and all arriving quotes have nonempty content. -/
theorem reachable_inv (pol : SessionType) (q0 : Quote) (h0 : q0.content_chars ≠ [])
    (s : DriverState)
    (hr : Reachable (fun q => q.content_chars ≠ [])
      ⟨TypingState.new pol q0, false⟩ s) :
    loop_inv s := by
  induction hr with
  | refl =>
    have h1 : 1 ≤ q0.content_chars.length := by
      cases hqc : q0.content_chars with
      | nil => exact absurd hqc h0
      | cons a l => simp
    refine loop_inv_mk _ _ ⟨?_, ?_, ?_, ?_⟩
    · exact fun habs => ControlFlow.noConfusion habs
    · intro _
      show ([] : List Char).length < q0.content_chars.length
      simpa using h1
    · intro habs
      exact ControlFlow.noConfusion habs
    · show ([] : List Char).length ≤ q0.content_chars.length + 1
      simp
  | step ev ms q hr hq hF hE ih =>
    exact driver_step_inv _ ev ms q hq ih hF hE

/-- C5 counterexample: under `Time 1` with a one-character quote, typing the
single character at 500 ms triggers the prefetch (`WaitingForQuote`), and a
second character at 1500 ms is pushed while waiting and finishes the
session by time-out: the session ends in a reachable state whose typed
buffer (2) is strictly longer than its quote buffer (1). The subtraction
`quote_len - typed_len` is not reached in that state, but the claimed
invariant `typed ≤ target` is violated. -/
theorem c5_counterexample :
    Reachable (fun q => q.content_chars ≠ [])
      ⟨TypingState.new (SessionType.Time 1) ⟨"a", "b", [], 1⟩, false⟩
      (driver_step
        (driver_step ⟨TypingState.new (SessionType.Time 1) ⟨"a", "b", [], 1⟩, false⟩
          ⟨KeyCode.char 'a', ⟨false, false, false⟩, KeyEventKind.press⟩ 500
          ⟨"x", "y", [], 1⟩)
        ⟨KeyCode.char 'x', ⟨false, false, false⟩, KeyEventKind.press⟩ 1500
        ⟨"x", "y", [], 1⟩) ∧
    (driver_step
        (driver_step ⟨TypingState.new (SessionType.Time 1) ⟨"a", "b", [], 1⟩, false⟩
          ⟨KeyCode.char 'a', ⟨false, false, false⟩, KeyEventKind.press⟩ 500
          ⟨"x", "y", [], 1⟩)
        ⟨KeyCode.char 'x', ⟨false, false, false⟩, KeyEventKind.press⟩ 1500
        ⟨"x", "y", [], 1⟩).ts.quote_chars.length <
      (driver_step
        (driver_step ⟨TypingState.new (SessionType.Time 1) ⟨"a", "b", [], 1⟩, false⟩
          ⟨KeyCode.char 'a', ⟨false, false, false⟩, KeyEventKind.press⟩ 500
          ⟨"x", "y", [], 1⟩)
        ⟨KeyCode.char 'x', ⟨false, false, false⟩, KeyEventKind.press⟩ 1500
        ⟨"x", "y", [], 1⟩).ts.typed_chars.length := by
  constructor
  · exact Reachable.step _ _ _
      (Reachable.step _ _ _ Reachable.refl (by decide) (by decide) (by decide))
      (by decide) (by decide) (by decide)
  · decide

/-- C5 amended: in every reachable driver state - provided the initial and
every arriving quote have nonempty content - the typed buffer never exceeds
the quote buffer by more than one character (the excess character is only
possible while a fetch is pending or in the `Finished`/`Exit` state it
produces, as the counterexample shows); whenever the control flow is
`Normal` the typed buffer is strictly shorter, and whenever it is
`WaitingForQuote` it is no longer than the quote buffer. Consequently the
`usize` subtraction in `requests_quote` - evaluated by
`update_control_flow` only when the flow is `Normal`, on the buffer
`apply_key` produces - never underflows. -/
theorem c5_buffer_invariant (pol : SessionType) (q0 : Quote)
    (h0 : q0.content_chars ≠ []) (s : DriverState)
    (hr : Reachable (fun q => q.content_chars ≠ [])
      ⟨TypingState.new pol q0, false⟩ s) :
    s.ts.typed_chars.length ≤ s.ts.quote_chars.length + 1 ∧
    (s.ts.control_flow = ControlFlow.Normal →
      s.ts.typed_chars.length < s.ts.quote_chars.length) ∧
    (s.ts.control_flow = ControlFlow.WaitingForQuote →
      s.ts.typed_chars.length ≤ s.ts.quote_chars.length) ∧
    (∀ ev : KeyEvent, s.ts.control_flow = ControlFlow.Normal →
      (apply_key s.ts ev).typed_chars.length ≤ (apply_key s.ts ev).quote_chars.length) := by
  obtain ⟨i1, i2, i3, i4⟩ := reachable_inv pol q0 h0 s hr
  refine ⟨i4, i2, fun h => (i3 h).1, fun ev hn => ?_⟩
  obtain ⟨-, f2, -, f4, -⟩ := apply_key_fields s.ts ev
  rw [f2]
  have := i2 hn
  omega

/-- Witness for C5 amended, at the initial state of a `Zen` session and a
concrete key event. -/
theorem c5_witness :
    (⟨TypingState.new SessionType.Zen ⟨"hi", "a", [], 2⟩, false⟩ : DriverState).ts.typed_chars.length ≤
      (⟨TypingState.new SessionType.Zen ⟨"hi", "a", [], 2⟩, false⟩ : DriverState).ts.quote_chars.length + 1 ∧
    (apply_key (⟨TypingState.new SessionType.Zen ⟨"hi", "a", [], 2⟩, false⟩ : DriverState).ts
        ⟨KeyCode.char 'x', ⟨false, false, false⟩, KeyEventKind.press⟩).typed_chars.length ≤
      (apply_key (⟨TypingState.new SessionType.Zen ⟨"hi", "a", [], 2⟩, false⟩ : DriverState).ts
        ⟨KeyCode.char 'x', ⟨false, false, false⟩, KeyEventKind.press⟩).quote_chars.length :=
  ⟨(c5_buffer_invariant SessionType.Zen ⟨"hi", "a", [], 2⟩ (by decide) _ Reachable.refl).1,
   (c5_buffer_invariant SessionType.Zen ⟨"hi", "a", [], 2⟩ (by decide) _ Reachable.refl).2.2.2
     ⟨KeyCode.char 'x', ⟨false, false, false⟩, KeyEventKind.press⟩ rfl⟩

end QuoteTyper
